import Mathlib

/-!
Shallow embedding of the bookworm fixed-size-page store.

The authoritative implementation is `src/src/pager.rs` (the `Pager` over an
`Rc<RefCell<S>>` byte sink, plus four iterator types). The underlying seekable
byte sink is modelled as an in-memory cursor over a list of bytes, matching
`std::io::Cursor<Vec<u8>>`, which is what the repository's tests bind the
store to. Bytes are `Nat` (always < 256 in practice; nothing here depends on
the bound). Fallible operations return `Except` paired with the post-state.

`pages_count` is a Rust `usize`; its only operation that can underflow is the
unchecked `self.pages_count -= 1` in `pop`, which is modelled with an explicit
wrap modulo `2 ^ 64` (release-build semantics; debug builds abort there).
-/

/-- The single error type of the crate (`src/src/error.rs`): an opaque
human-readable message. Distinct failure kinds are distinguished only by
their message strings. -/
structure BookwormError where
  message : String
deriving DecidableEq, Repr

def BookwormError.new (message : String) : BookwormError := ⟨message⟩

deriving instance DecidableEq for Except

abbrev BookwormResult (α : Type) := Except BookwormError α

/-- In-memory seekable byte sink, as `std::io::Cursor<Vec<u8>>`. -/
structure Cursor where
  stream : List Nat
  pos : Nat
deriving DecidableEq, Repr

/-- `seek(SeekFrom::Start(off))`: never fails on an in-memory cursor. -/
def Cursor.seekStart (c : Cursor) (off : Nat) : Cursor := { c with pos := off }

/-- `read_exact` on a cursor: succeeds iff `n` bytes remain; on failure the
cursor has consumed the remaining bytes (the default loop reads what is
available before reporting `UnexpectedEof`). -/
def Cursor.readExact (c : Cursor) (n : Nat) : Option (List Nat) × Cursor :=
  if c.pos + n ≤ c.stream.length then
    (some ((c.stream.drop c.pos).take n), { c with pos := c.pos + n })
  else
    (none, { c with pos := c.stream.length })

/-- Overwrite `data` into `stream` at offset `pos`, zero-filling any gap
between the end of the stream and `pos` and extending the stream as needed
(`Cursor<Vec<u8>>` write semantics). -/
def writeBytes (stream : List Nat) (pos : Nat) (data : List Nat) : List Nat :=
  let padded := stream ++ List.replicate (pos - stream.length) 0
  padded.take pos ++ data ++ padded.drop (pos + data.length)

/-- `write_all` on a cursor: never fails in memory. -/
def Cursor.writeAll (c : Cursor) (data : List Nat) : Cursor :=
  { stream := writeBytes c.stream c.pos data, pos := c.pos + data.length }

/-- The `n` bytes of `l` starting at offset `off` (shorter near the end). -/
def sliceAt (l : List Nat) (off n : Nat) : List Nat := (l.drop off).take n

/-- `usize` modulus on the 64-bit targets the crate is built for. -/
def USIZE : Nat := 2 ^ 64

/-- `Pager` from `src/src/pager.rs`: page-size bookkeeping, the in-memory
page counter, and the shared handle to the byte sink. -/
structure Pager where
  pageSize : Nat
  pagesCount : Nat
  dataSource : Cursor
deriving DecidableEq, Repr

/-- `Pager::new`: derives `pages_count` from the current stream length
(`seek(End(0))` reports the length and leaves the cursor there). In Rust a
`page_size` of zero aborts on the division; callers always pass a positive
page size. -/
def Pager.new (pageSize : Nat) (stream : List Nat) : Pager :=
  { pageSize := pageSize
    pagesCount := stream.length / pageSize
    dataSource := { stream := stream, pos := stream.length } }

/-- `Pager::get_raw_page`. The `BufReader` seek lands the underlying cursor
at `page_size * page` (its buffer is empty), and the subsequent `read_exact`
goes straight to the data source. -/
def Pager.getRawPage (p : Pager) (page : Nat) : BookwormResult (List Nat) × Pager :=
  if page ≥ p.pagesCount then
    (.error (BookwormError.new "Page doesn't exist"), p)
  else
    let c := p.dataSource.seekStart (p.pageSize * page)
    match c.readExact p.pageSize with
    | (some buf, c') => (.ok buf, { p with dataSource := c' })
    | (none, c') => (.error (BookwormError.new "Could not read page"), { p with dataSource := c' })

/-- `Pager::get_page`, parameterized by the record codec's decoder
(`bincode::deserialize`). -/
def Pager.getPage {T : Type} (decode : List Nat → Option T) (p : Pager) (page : Nat) :
    BookwormResult T × Pager :=
  match p.getRawPage page with
  | (.ok raw, p') =>
    match decode raw with
    | some v => (.ok v, p')
    | none => (.error (BookwormError.new "Could not parse data"), p')
  | (.error e, p') => (.error e, p')

/-- `Pager::write_raw_page`: bounds check, size check, then write the payload
followed by the zero padding. -/
def Pager.writeRawPage (p : Pager) (page : Nat) (data : List Nat) : BookwormResult Unit × Pager :=
  if page ≥ p.pagesCount then
    (.error (BookwormError.new "Page doesn't exist"), p)
  else if data.length > p.pageSize then
    (.error (BookwormError.new "Could not write data to page: data is bigger than page"), p)
  else
    let c := p.dataSource.seekStart (p.pageSize * page)
    let c := c.writeAll data
    let c := c.writeAll (List.replicate (p.pageSize - data.length) 0)
    (.ok (), { p with dataSource := c })

/-- `Pager::write_page`, parameterized by the record codec's encoder
(`bincode::serialize`, which can fail). -/
def Pager.writePage {T : Type} (encode : T → Option (List Nat)) (p : Pager) (page : Nat)
    (data : T) : BookwormResult Unit × Pager :=
  if page ≥ p.pagesCount then
    (.error (BookwormError.new "Page doesn't exist"), p)
  else
    match encode data with
    | none => (.error (BookwormError.new "Could not serialize data"), p)
    | some serialized =>
      if serialized.length > p.pageSize then
        (.error (BookwormError.new "Could not write data to page: data is bigger than page"), p)
      else
        match p.writeRawPage page serialized with
        | (.ok _, p') => (.ok (), p')
        | (.error _, p') => (.error (BookwormError.new "Could not write page"), p')

/-- `Pager::push`: increments `pages_count` first, then writes at the new
last index. -/
def Pager.push {T : Type} (encode : T → Option (List Nat)) (p : Pager) (data : T) :
    BookwormResult Unit × Pager :=
  let p1 := { p with pagesCount := p.pagesCount + 1 }
  Pager.writePage encode p1 (p1.pagesCount - 1) data

/-- `Pager::push_raw`: increments `pages_count` first, then writes at the new
last index. -/
def Pager.pushRaw (p : Pager) (data : List Nat) : BookwormResult Unit × Pager :=
  let p1 := { p with pagesCount := p.pagesCount + 1 }
  Pager.writeRawPage p1 (p1.pagesCount - 1) data

/-- `Pager::pop`: unchecked `self.pages_count -= 1` (wraps modulo `2 ^ 64` in
release builds; debug builds abort), then overwrites the vacated slot with
`page_size` zero bytes. -/
def Pager.pop (p : Pager) : BookwormResult Unit × Pager :=
  let newCount := (p.pagesCount + (USIZE - 1)) % USIZE
  let pageOffset := newCount * p.pageSize
  let c := p.dataSource.seekStart pageOffset
  let c := c.writeAll (List.replicate p.pageSize 0)
  (.ok (), { p with pagesCount := newCount, dataSource := c })

/-- `Pager::clear`: resets the logical count, leaving the bytes alone. -/
def Pager.clear (p : Pager) : Pager := { p with pagesCount := 0 }

/-- Consuming raw iterator (`RawPagerIterator`), built by
`Pager::into_raw_iterator`, which seeks to the start page and drops the
counter. -/
structure RawPagerIterator where
  pageSize : Nat
  dataSource : Cursor
deriving DecidableEq, Repr

def Pager.intoRawIterator (p : Pager) (startingPage : Nat) : RawPagerIterator :=
  { pageSize := p.pageSize
    dataSource := p.dataSource.seekStart (p.pageSize * startingPage) }

/-- `<RawPagerIterator as Iterator>::next`: read exactly `page_size` bytes at
the current position; a failed read yields nothing. -/
def RawPagerIterator.next (it : RawPagerIterator) : Option (List Nat) × RawPagerIterator :=
  match it.dataSource.readExact it.pageSize with
  | (some buf, c') => (some buf, { it with dataSource := c' })
  | (none, c') => (none, { it with dataSource := c' })

/-- Consuming typed iterator (`PagerIterator`), built by
`Pager::into_iterator`. -/
structure PagerIterator where
  pageSize : Nat
  dataSource : Cursor
deriving DecidableEq, Repr

def Pager.intoIterator (p : Pager) (startingPage : Nat) : PagerIterator :=
  { pageSize := p.pageSize
    dataSource := p.dataSource.seekStart (p.pageSize * startingPage) }

/-- `<PagerIterator as Iterator>::next`: a failed read, or a failed decode of
a successfully read page, yields nothing. -/
def PagerIterator.next {T : Type} (decode : List Nat → Option T) (it : PagerIterator) :
    Option T × PagerIterator :=
  match it.dataSource.readExact it.pageSize with
  | (some buf, c') =>
    match decode buf with
    | some v => (some v, { it with dataSource := c' })
    | none => (none, { it with dataSource := c' })
  | (none, c') => (none, { it with dataSource := c' })

/-- Borrowing raw iterator (`RawPagerIter`), built by `Pager::raw_iter`. -/
structure RawPagerIter where
  currPos : Nat
  pager : Pager
deriving DecidableEq, Repr

def Pager.rawIter (p : Pager) (startingPage : Nat) : RawPagerIter :=
  { currPos := startingPage, pager := p }

/-- `<RawPagerIter as Iterator>::next`: `get_raw_page` at the current index,
advancing on success. -/
def RawPagerIter.next (it : RawPagerIter) : Option (List Nat) × RawPagerIter :=
  match it.pager.getRawPage it.currPos with
  | (.ok page, pg') => (some page, { currPos := it.currPos + 1, pager := pg' })
  | (.error _, pg') => (none, { currPos := it.currPos, pager := pg' })

/-- Borrowing typed iterator (`PagerIter`), built by `Pager::iter`. -/
structure PagerIter where
  currPos : Nat
  pager : Pager
deriving DecidableEq, Repr

def Pager.iter (p : Pager) (startingPage : Nat) : PagerIter :=
  { currPos := startingPage, pager := p }

/-- `<PagerIter as Iterator>::next`: `get_page` at the current index,
advancing on success; any failure (missing page, short read, decode error)
yields nothing. -/
def PagerIter.next {T : Type} (decode : List Nat → Option T) (it : PagerIter) :
    Option T × PagerIter :=
  match Pager.getPage decode it.pager it.currPos with
  | (.ok v, pg') => (some v, { currPos := it.currPos + 1, pager := pg' })
  | (.error _, pg') => (none, { currPos := it.currPos, pager := pg' })

/-- The finite sequence a caller obtains by repeatedly calling `next` on the
borrowing raw iterator, stopping at the first exhausted step; `fuel` bounds
the number of steps inspected. -/
def runRawIter : Nat → RawPagerIter → List (List Nat)
  | 0, _ => []
  | fuel + 1, it =>
    match RawPagerIter.next it with
    | (some page, it') => page :: runRawIter fuel it'
    | (none, _) => []

/-- The finite sequence a caller obtains by repeatedly calling `next` on the
consuming raw iterator, stopping at the first exhausted step. -/
def runRawIterator : Nat → RawPagerIterator → List (List Nat)
  | 0, _ => []
  | fuel + 1, it =>
    match RawPagerIterator.next it with
    | (some page, it') => page :: runRawIterator fuel it'
    | (none, _) => []

/-- The visible sequence of a store: the raw contents of pages
`0 .. pages_count - 1`. -/
def visPages (p : Pager) : List (List Nat) :=
  (List.range p.pagesCount).map (fun i => sliceAt p.dataSource.stream (p.pageSize * i) p.pageSize)

/-! ## Byte-level lemmas about the in-memory sink -/

theorem length_writeBytes (st : List Nat) (pos : Nat) (data : List Nat) :
    (writeBytes st pos data).length = max st.length (pos + data.length) := by
  simp only [writeBytes, List.length_append, List.length_take, List.length_drop,
    List.length_replicate]
  omega

theorem sliceAt_length_of_le (l : List Nat) (off n : Nat) (h : off + n ≤ l.length) :
    (sliceAt l off n).length = n := by
  simp only [sliceAt, List.length_take, List.length_drop]
  omega

theorem sliceAt_writeBytes_self (st : List Nat) (pos : Nat) (data : List Nat) :
    sliceAt (writeBytes st pos data) pos data.length = data := by
  simp only [writeBytes, sliceAt]
  have htk : ((st ++ List.replicate (pos - st.length) 0).take pos).length = pos := by
    simp only [List.length_take, List.length_append, List.length_replicate]
    omega
  rw [List.append_assoc, List.drop_left' htk, List.take_left]

theorem sliceAt_append_of_le (st r : List Nat) (off n : Nat) (h : off + n ≤ st.length) :
    sliceAt (st ++ r) off n = sliceAt st off n := by
  simp only [sliceAt]
  rw [List.drop_append_of_le_length (by omega), List.take_append_of_le_length]
  simp only [List.length_drop]
  omega

theorem sliceAt_writeBytes_lo (st : List Nat) (pos : Nat) (data : List Nat) (off n : Nat)
    (h1 : off + n ≤ pos) (h2 : off + n ≤ st.length) :
    sliceAt (writeBytes st pos data) off n = sliceAt st off n := by
  simp only [writeBytes, sliceAt]
  have hA : ((st ++ List.replicate (pos - st.length) 0).take pos).length = pos := by
    simp only [List.length_take, List.length_append, List.length_replicate]
    omega
  rw [List.append_assoc, List.drop_append_of_le_length (by omega),
    List.take_append_of_le_length (by simp only [List.length_drop, hA]; omega),
    List.drop_take, List.take_take, min_eq_left (by omega : n ≤ pos - off),
    List.drop_append_of_le_length (by omega : off ≤ st.length),
    List.take_append_of_le_length (by simp only [List.length_drop]; omega)]

theorem sliceAt_writeBytes_hi (st : List Nat) (pos : Nat) (data : List Nat) (off n : Nat)
    (h1 : pos + data.length ≤ off) (h2 : pos ≤ st.length) :
    sliceAt (writeBytes st pos data) off n = sliceAt st off n := by
  simp only [writeBytes, sliceAt]
  have hpad : pos - st.length = 0 := by omega
  rw [hpad]
  simp only [List.replicate_zero, List.append_nil]
  have hX : ((st.take pos) ++ data).length = pos + data.length := by
    simp only [List.length_append, List.length_take]
    omega
  have key : List.drop off ((st.take pos ++ data) ++ st.drop (pos + data.length))
      = List.drop off st := by
    have hoff : off = ((st.take pos) ++ data).length + (off - (pos + data.length)) := by omega
    rw [hoff, List.drop_append, List.drop_drop]
    congr 1
    omega
  rw [key]

theorem writeBytes_append (st : List Nat) (pos : Nat) (a b : List Nat) :
    writeBytes (writeBytes st pos a) (pos + a.length) b = writeBytes st pos (a ++ b) := by
  simp only [writeBytes]
  set P := st ++ List.replicate (pos - st.length) 0 with hPdef
  have hPlen : pos ≤ P.length := by
    simp only [hPdef, List.length_append, List.length_replicate]
    omega
  set A := P.take pos with hAdef
  have hAlen : A.length = pos := by
    simp only [hAdef, List.length_take]
    omega
  set D := P.drop (pos + a.length) with hDdef
  have hpad : pos + a.length - (A ++ a ++ D).length = 0 := by
    simp only [List.length_append, hAlen]
    omega
  rw [hpad]
  simp only [List.replicate_zero, List.append_nil]
  have htake : (A ++ a ++ D).take (pos + a.length) = A ++ a :=
    List.take_left' (by simp only [List.length_append, hAlen])
  have hdrop : (A ++ a ++ D).drop (pos + a.length + b.length) = P.drop (pos + (a ++ b).length) := by
    have hsplit : pos + a.length + b.length = (A ++ a).length + b.length := by
      simp only [List.length_append, hAlen]
    rw [hsplit, List.drop_append, hDdef, List.drop_drop]
    congr 1
    simp only [List.length_append]
    omega
  rw [htake, hdrop]
  simp only [List.append_assoc]

/-! ## Equation lemmas for the pager operations -/

theorem getRawPage_notFound (p : Pager) (i : Nat) (h : p.pagesCount ≤ i) :
    p.getRawPage i = (.error (BookwormError.new "Page doesn't exist"), p) := by
  simp [Pager.getRawPage, h]

theorem getRawPage_ok (p : Pager) (i : Nat) (h1 : i < p.pagesCount)
    (h2 : p.pageSize * i + p.pageSize ≤ p.dataSource.stream.length) :
    p.getRawPage i = (.ok (sliceAt p.dataSource.stream (p.pageSize * i) p.pageSize),
      { p with dataSource :=
        { stream := p.dataSource.stream, pos := p.pageSize * i + p.pageSize } }) := by
  have hnot : ¬ i ≥ p.pagesCount := by omega
  simp [Pager.getRawPage, hnot, Cursor.seekStart, Cursor.readExact, sliceAt, h2]

theorem getRawPage_shortRead (p : Pager) (i : Nat) (h1 : i < p.pagesCount)
    (h2 : ¬ p.pageSize * i + p.pageSize ≤ p.dataSource.stream.length) :
    p.getRawPage i = (.error (BookwormError.new "Could not read page"),
      { p with dataSource :=
        { stream := p.dataSource.stream, pos := p.dataSource.stream.length } }) := by
  have hnot : ¬ i ≥ p.pagesCount := by omega
  simp [Pager.getRawPage, hnot, Cursor.seekStart, Cursor.readExact, h2]

theorem writeRawPage_ok (p : Pager) (i : Nat) (data : List Nat) (h1 : i < p.pagesCount)
    (h2 : data.length ≤ p.pageSize) :
    p.writeRawPage i data = (.ok (),
      { p with dataSource :=
        { stream := writeBytes p.dataSource.stream (p.pageSize * i)
            (data ++ List.replicate (p.pageSize - data.length) 0),
          pos := p.pageSize * i + p.pageSize } }) := by
  have hnot : ¬ i ≥ p.pagesCount := by omega
  have hnot2 : ¬ data.length > p.pageSize := by omega
  simp only [Pager.writeRawPage, hnot, hnot2, if_false, Cursor.seekStart, Cursor.writeAll,
    Prod.mk.injEq, Pager.mk.injEq, Cursor.mk.injEq, eq_self_iff_true, true_and, and_true]
  constructor
  · rw [writeBytes_append]
  · simp only [List.length_replicate]
    omega

theorem writePage_ok {T : Type} (encode : T → Option (List Nat)) (p : Pager) (i : Nat) (v : T)
    (ser : List Nat) (h1 : i < p.pagesCount) (henc : encode v = some ser)
    (h2 : ser.length ≤ p.pageSize) :
    Pager.writePage encode p i v = (.ok (),
      { p with dataSource :=
        { stream := writeBytes p.dataSource.stream (p.pageSize * i)
            (ser ++ List.replicate (p.pageSize - ser.length) 0),
          pos := p.pageSize * i + p.pageSize } }) := by
  have hnot : ¬ i ≥ p.pagesCount := by omega
  have hnot2 : ¬ ser.length > p.pageSize := by omega
  simp only [Pager.writePage, hnot, if_false, henc, hnot2, writeRawPage_ok p i ser h1 h2]

theorem pushRaw_ok (p : Pager) (data : List Nat) (h : data.length ≤ p.pageSize) :
    p.pushRaw data = (.ok (),
      { pageSize := p.pageSize, pagesCount := p.pagesCount + 1,
        dataSource :=
        { stream := writeBytes p.dataSource.stream (p.pageSize * p.pagesCount)
            (data ++ List.replicate (p.pageSize - data.length) 0),
          pos := p.pageSize * p.pagesCount + p.pageSize } }) := by
  simp only [Pager.pushRaw, Nat.add_sub_cancel]
  exact writeRawPage_ok ⟨p.pageSize, p.pagesCount + 1, p.dataSource⟩ p.pagesCount data
    (Nat.lt_succ_self _) h

theorem push_ok {T : Type} (encode : T → Option (List Nat)) (p : Pager) (v : T)
    (ser : List Nat) (henc : encode v = some ser) (h : ser.length ≤ p.pageSize) :
    Pager.push encode p v = (.ok (),
      { pageSize := p.pageSize, pagesCount := p.pagesCount + 1,
        dataSource :=
        { stream := writeBytes p.dataSource.stream (p.pageSize * p.pagesCount)
            (ser ++ List.replicate (p.pageSize - ser.length) 0),
          pos := p.pageSize * p.pagesCount + p.pageSize } }) := by
  simp only [Pager.push, Nat.add_sub_cancel]
  exact writePage_ok encode ⟨p.pageSize, p.pagesCount + 1, p.dataSource⟩ p.pagesCount v ser
    (Nat.lt_succ_self _) henc h

theorem getPage_state_eq {T : Type} (decode : List Nat → Option T) (p : Pager) (i : Nat) :
    (Pager.getPage decode p i).2 = (p.getRawPage i).2 := by
  simp only [Pager.getPage]
  rcases hre : p.getRawPage i with ⟨r, p'⟩
  cases r with
  | ok raw => cases hdec : decode raw <;> simp [hdec]
  | error e => simp

/-! ## Claim theorems -/

/-- C2: the claim fails on the code. `Pager::push_raw` (like `Pager::push`)
increments `pages_count` before attempting the write and leaves it
incremented when the write fails: pushing a 5-byte payload into an empty
store with `page_size = 4` fails with the PageTooLarge error, yet
`pages_count` ends up 1 instead of 0 — a counted-but-unwritten slot. -/
theorem pushRaw_failure_leaves_count_incremented :
    (Pager.new 4 []).pagesCount = 0 ∧
    (Pager.pushRaw (Pager.new 4 []) [1, 2, 3, 4, 5]).1 =
      .error (BookwormError.new "Could not write data to page: data is bigger than page") ∧
    (Pager.pushRaw (Pager.new 4 []) [1, 2, 3, 4, 5]).2.pagesCount = 1 := by
  decide

/-- C3: the claim fails on the code. `Pager::pop` performs an unchecked
`pages_count -= 1`: on a store with `pages_count = 0` it does not fail with
an underflow error — it reports success and the counter wraps below zero to
`2 ^ 64 - 1` (release-build semantics; debug builds abort at the
subtraction). -/
theorem pop_empty_wraps_count :
    (Pager.new 4 []).pagesCount = 0 ∧
    (Pager.pop (Pager.new 4 [])).1 = .ok () ∧
    (Pager.pop (Pager.new 4 [])).2.pagesCount = 2 ^ 64 - 1 :=
  ⟨rfl, rfl, rfl⟩

/-- C10: read operations are pure with respect to the store: for every index,
`get_raw_page` and `get_page` — whether they succeed or fail — leave
`pages_count` and the bytes on the underlying stream unchanged (only the
cursor position moves). -/
theorem reads_preserve_store {T : Type} (decode : List Nat → Option T) (p : Pager) (i : Nat) :
    (p.getRawPage i).2.dataSource.stream = p.dataSource.stream ∧
    (p.getRawPage i).2.pagesCount = p.pagesCount ∧
    (Pager.getPage decode p i).2.dataSource.stream = p.dataSource.stream ∧
    (Pager.getPage decode p i).2.pagesCount = p.pagesCount := by
  have hraw : (p.getRawPage i).2.dataSource.stream = p.dataSource.stream ∧
      (p.getRawPage i).2.pagesCount = p.pagesCount := by
    by_cases hb : p.pagesCount ≤ i
    · rw [getRawPage_notFound p i hb]
      exact ⟨rfl, rfl⟩
    · by_cases hc : p.pageSize * i + p.pageSize ≤ p.dataSource.stream.length
      · rw [getRawPage_ok p i (by omega) hc]
        exact ⟨rfl, rfl⟩
      · rw [getRawPage_shortRead p i (by omega) hc]
        exact ⟨rfl, rfl⟩
  refine ⟨hraw.1, hraw.2, ?_, ?_⟩ <;> rw [getPage_state_eq]
  · exact hraw.1
  · exact hraw.2

/-- C6: `get_raw_page(index)` fails with the PageNotFound error ("Page
doesn't exist") exactly when `index >= pages_count`; for every
`index < pages_count` whose slot's bytes are present on the stream it
returns exactly the `page_size` bytes stored at byte offset
`index * page_size`, unmodified. -/
theorem getRawPage_spec (p : Pager) (i : Nat) :
    ((p.getRawPage i).1 = .error (BookwormError.new "Page doesn't exist") ↔ p.pagesCount ≤ i) ∧
    (i < p.pagesCount → p.pageSize * i + p.pageSize ≤ p.dataSource.stream.length →
      (p.getRawPage i).1 = .ok (sliceAt p.dataSource.stream (p.pageSize * i) p.pageSize)) := by
  constructor
  · constructor
    · intro h
      by_contra hlt
      push_neg at hlt
      by_cases hc : p.pageSize * i + p.pageSize ≤ p.dataSource.stream.length
      · rw [getRawPage_ok p i hlt hc] at h
        exact absurd h (by simp)
      · rw [getRawPage_shortRead p i hlt hc] at h
        dsimp only at h
        exact absurd h (by decide)
    · intro h
      rw [getRawPage_notFound p i h]
  · intro h1 h2
    rw [getRawPage_ok p i h1 h2]

/-- Witness for C6 at a concrete store of two one-byte pages. -/
theorem getRawPage_spec_witness :
    (((Pager.new 1 [5, 6]).getRawPage 0).1 = .error (BookwormError.new "Page doesn't exist")
      ↔ (Pager.new 1 [5, 6]).pagesCount ≤ 0) ∧
    ((Pager.new 1 [5, 6]).getRawPage 0).1 = .ok [5] := by
  refine ⟨(getRawPage_spec (Pager.new 1 [5, 6]) 0).1, ?_⟩
  have h := (getRawPage_spec (Pager.new 1 [5, 6]) 0).2 (by decide) (by decide)
  rw [h]
  decide

/-- C7: for every valid index, an oversize payload (`write_raw_page`) or an
oversize encoding (`write_page`) is rejected with the PageTooLarge error and
the store — including every byte of the underlying stream — is returned
unchanged: no byte of the slot is written. -/
theorem oversize_write_rejected {T : Type} (encode : T → Option (List Nat)) (p : Pager)
    (i : Nat) (data ser : List Nat) (v : T) :
    (i < p.pagesCount → p.pageSize < data.length →
      p.writeRawPage i data =
        (.error (BookwormError.new "Could not write data to page: data is bigger than page"),
          p)) ∧
    (i < p.pagesCount → encode v = some ser → p.pageSize < ser.length →
      Pager.writePage encode p i v =
        (.error (BookwormError.new "Could not write data to page: data is bigger than page"),
          p)) := by
  constructor
  · intro h1 h2
    have hnot : ¬ i ≥ p.pagesCount := by omega
    simp [Pager.writeRawPage, hnot, h2]
  · intro h1 henc h2
    have hnot : ¬ i ≥ p.pagesCount := by omega
    simp [Pager.writePage, hnot, henc, h2]

/-- Witness for C7 at a concrete store: one 2-byte page, 3-byte payloads. -/
theorem oversize_write_rejected_witness :
    (0 < (Pager.new 2 [7, 7]).pagesCount ∧ (Pager.new 2 [7, 7]).pageSize < 3) ∧
    (Pager.new 2 [7, 7]).writeRawPage 0 [1, 2, 3] =
      (.error (BookwormError.new "Could not write data to page: data is bigger than page"),
        Pager.new 2 [7, 7]) ∧
    Pager.writePage (fun n : Nat => some [n, n, n]) (Pager.new 2 [7, 7]) 0 9 =
      (.error (BookwormError.new "Could not write data to page: data is bigger than page"),
        Pager.new 2 [7, 7]) := by
  have h := oversize_write_rejected (fun n : Nat => some [n, n, n]) (Pager.new 2 [7, 7]) 0
    [1, 2, 3] [9, 9, 9] 9
  exact ⟨⟨by decide, by decide⟩, h.1 (by decide) (by decide),
    h.2 (by decide) rfl (by decide)⟩

/-- C9: in typed iteration, under both disciplines, a decode failure on a
successfully read page ends the sequence rather than reporting an error: the
step returns `none`, indistinguishable from end of data (the step's result
type has no error channel at all), and the borrowing iterator does not even
advance its position, so every further step returns `none` as well. -/
theorem decode_failure_ends_iteration {T : Type} (decode : List Nat → Option T)
    (itc : PagerIterator) (itb : PagerIter) (buf raw : List Nat) :
    ((itc.dataSource.readExact itc.pageSize).1 = some buf → decode buf = none →
      (PagerIterator.next decode itc).1 = none) ∧
    ((itb.pager.getRawPage itb.currPos).1 = .ok raw → decode raw = none →
      (PagerIter.next decode itb).1 = none ∧
      (PagerIter.next decode itb).2.currPos = itb.currPos) := by
  constructor
  · intro h1 h2
    simp only [PagerIterator.next]
    rcases hre : itc.dataSource.readExact itc.pageSize with ⟨r, c'⟩
    rw [hre] at h1
    cases r with
    | none => simp at h1
    | some a =>
      simp only [Prod.fst, Option.some.injEq] at h1
      subst h1
      simp [h2]
  · intro h1 h2
    simp only [PagerIter.next, Pager.getPage]
    rcases hre : itb.pager.getRawPage itb.currPos with ⟨r, pg'⟩
    rw [hre] at h1
    cases r with
    | error e => simp at h1
    | ok a =>
      simp only [Prod.fst, Except.ok.injEq] at h1
      subst h1
      simp [h2]

/-- Witness for C9 at a concrete one-page store with an always-failing
decoder. -/
theorem decode_failure_ends_iteration_witness :
    ((Pager.intoIterator (Pager.new 1 [5]) 0).dataSource.readExact
        (Pager.intoIterator (Pager.new 1 [5]) 0).pageSize).1 = some [5] ∧
    ((Pager.iter (Pager.new 1 [5]) 0).pager.getRawPage
        (Pager.iter (Pager.new 1 [5]) 0).currPos).1 = .ok [5] ∧
    (PagerIterator.next (fun _ => (none : Option Nat))
        (Pager.intoIterator (Pager.new 1 [5]) 0)).1 = none ∧
    (PagerIter.next (fun _ => (none : Option Nat)) (Pager.iter (Pager.new 1 [5]) 0)).1 =
      none := by
  have h := decode_failure_ends_iteration (fun _ => (none : Option Nat))
    (Pager.intoIterator (Pager.new 1 [5]) 0) (Pager.iter (Pager.new 1 [5]) 0) [5] [5]
  exact ⟨by decide, by decide, h.1 (by decide) rfl, (h.2 (by decide) rfl).1⟩

theorem getPage_ok {T : Type} (decode : List Nat → Option T) (p : Pager) (i : Nat) (v : T)
    (h1 : i < p.pagesCount) (h2 : p.pageSize * i + p.pageSize ≤ p.dataSource.stream.length)
    (hdec : decode (sliceAt p.dataSource.stream (p.pageSize * i) p.pageSize) = some v) :
    Pager.getPage decode p i = (.ok v,
      { p with dataSource :=
        { stream := p.dataSource.stream, pos := p.pageSize * i + p.pageSize } }) := by
  simp only [Pager.getPage, getRawPage_ok p i h1 h2, hdec]

theorem getPage_notFound {T : Type} (decode : List Nat → Option T) (p : Pager) (i : Nat)
    (h : p.pagesCount ≤ i) :
    Pager.getPage decode p i = (.error (BookwormError.new "Page doesn't exist"), p) := by
  simp only [Pager.getPage, getRawPage_notFound p i h]

theorem pop_eq (p : Pager) :
    p.pop = (.ok (),
      { pageSize := p.pageSize
        pagesCount := (p.pagesCount + (USIZE - 1)) % USIZE
        dataSource :=
          { stream := writeBytes p.dataSource.stream
              ((p.pagesCount + (USIZE - 1)) % USIZE * p.pageSize) (List.replicate p.pageSize 0)
            pos := (p.pagesCount + (USIZE - 1)) % USIZE * p.pageSize + p.pageSize } }) := by
  simp only [Pager.pop, Cursor.seekStart, Cursor.writeAll, List.length_replicate]

theorem usize_pred_wrap (n : Nat) (h : n + 1 < USIZE) :
    (n + 1 + (USIZE - 1)) % USIZE = n := by
  have hU : 0 < USIZE := by norm_num [USIZE]
  have h1 : n + 1 + (USIZE - 1) = n + USIZE := by omega
  rw [h1, Nat.add_mod_right, Nat.mod_eq_of_lt (by omega)]

/-- C5: round-trip — for every index `i < pages_count` and every value whose
encoding `ser` fits in a page and decodes self-delimitingly (decoding `ser`
followed by its zero padding yields the value back), `write_page(i, v)`
succeeds and a subsequent `get_page(i)` returns a value equal to `v`. -/
theorem write_then_get_roundtrip {T : Type} (encode : T → Option (List Nat))
    (decode : List Nat → Option T) (p : Pager) (i : Nat) (v : T) (ser : List Nat)
    (h1 : i < p.pagesCount) (henc : encode v = some ser) (h2 : ser.length ≤ p.pageSize)
    (hdec : decode (ser ++ List.replicate (p.pageSize - ser.length) 0) = some v) :
    (Pager.writePage encode p i v).1 = .ok () ∧
    (Pager.getPage decode (Pager.writePage encode p i v).2 i).1 = .ok v := by
  have hDlen : (ser ++ List.replicate (p.pageSize - ser.length) 0).length = p.pageSize := by
    simp only [List.length_append, List.length_replicate]
    omega
  rw [writePage_ok encode p i v ser h1 henc h2]
  refine ⟨rfl, ?_⟩
  dsimp only
  have hlen : p.pageSize * i + p.pageSize ≤ (writeBytes p.dataSource.stream (p.pageSize * i)
      (ser ++ List.replicate (p.pageSize - ser.length) 0)).length := by
    rw [length_writeBytes, hDlen]
    omega
  have hslice : sliceAt (writeBytes p.dataSource.stream (p.pageSize * i)
      (ser ++ List.replicate (p.pageSize - ser.length) 0)) (p.pageSize * i) p.pageSize
      = ser ++ List.replicate (p.pageSize - ser.length) 0 := by
    have hself := sliceAt_writeBytes_self p.dataSource.stream (p.pageSize * i)
      (ser ++ List.replicate (p.pageSize - ser.length) 0)
    rw [hDlen] at hself
    exact hself
  rw [getPage_ok decode
    ⟨p.pageSize, p.pagesCount,
      ⟨writeBytes p.dataSource.stream (p.pageSize * i)
          (ser ++ List.replicate (p.pageSize - ser.length) 0),
        p.pageSize * i + p.pageSize⟩⟩
    i v h1 hlen (by rw [hslice]; exact hdec)]

/-- Witness for C5: write the encoded value 5 into page 0 of a two-page
store with `page_size = 2` and read it back. -/
theorem write_then_get_roundtrip_witness :
    (0 < (Pager.new 2 [9, 9, 9, 9]).pagesCount) ∧
    (Pager.writePage (fun n : Nat => some [n]) (Pager.new 2 [9, 9, 9, 9]) 0 5).1 = .ok () ∧
    (Pager.getPage (fun l : List Nat => l.head?)
      (Pager.writePage (fun n : Nat => some [n]) (Pager.new 2 [9, 9, 9, 9]) 0 5).2 0).1 =
      .ok 5 := by
  have h := write_then_get_roundtrip (fun n : Nat => some [n]) (fun l : List Nat => l.head?)
    (Pager.new 2 [9, 9, 9, 9]) 0 5 [5] (by decide) rfl (by decide) (by decide)
  exact ⟨by decide, h.1, h.2⟩

/-- C8: push/pop inverse — after a successful typed `push(v)` (the encoding
fits a page and round-trips through the codec), `pages_count` has increased
by 1 and `get_page(pages_count - 1)` returns `v`; a following `pop()`
succeeds, decreases `pages_count` by 1, and `get_page` at the old last index
then fails with the PageNotFound error. -/
theorem push_pop_inverse {T : Type} (encode : T → Option (List Nat))
    (decode : List Nat → Option T) (p : Pager) (v : T) (ser : List Nat)
    (henc : encode v = some ser) (hser : ser.length ≤ p.pageSize)
    (hdec : decode (ser ++ List.replicate (p.pageSize - ser.length) 0) = some v)
    (hcnt : p.pagesCount + 1 < USIZE) :
    let r1 := Pager.push encode p v
    let r2 := Pager.getPage decode r1.2 (r1.2.pagesCount - 1)
    let r3 := Pager.pop r2.2
    r1.1 = .ok () ∧
    r1.2.pagesCount = p.pagesCount + 1 ∧
    r2.1 = .ok v ∧
    r3.1 = .ok () ∧
    r3.2.pagesCount + 1 = r1.2.pagesCount ∧
    (Pager.getPage decode r3.2 p.pagesCount).1 =
      .error (BookwormError.new "Page doesn't exist") := by
  obtain ⟨ps, pc, st, pos0⟩ := p
  dsimp only at hser hdec hcnt ⊢
  have hDlen : (ser ++ List.replicate (ps - ser.length) 0).length = ps := by
    simp only [List.length_append, List.length_replicate]
    omega
  have e1 := push_ok encode ⟨ps, pc, ⟨st, pos0⟩⟩ v ser henc hser
  dsimp only at e1
  rw [e1]
  dsimp only
  simp only [Nat.add_sub_cancel]
  have hWlen : ps * pc + ps ≤
      (writeBytes st (ps * pc) (ser ++ List.replicate (ps - ser.length) 0)).length := by
    rw [length_writeBytes, hDlen]
    omega
  have hslice : sliceAt (writeBytes st (ps * pc) (ser ++ List.replicate (ps - ser.length) 0))
      (ps * pc) ps = ser ++ List.replicate (ps - ser.length) 0 := by
    have hself := sliceAt_writeBytes_self st (ps * pc)
      (ser ++ List.replicate (ps - ser.length) 0)
    rw [hDlen] at hself
    exact hself
  have e2 : Pager.getPage decode
      ⟨ps, pc + 1, ⟨writeBytes st (ps * pc) (ser ++ List.replicate (ps - ser.length) 0),
        ps * pc + ps⟩⟩ pc
      = (.ok v, ⟨ps, pc + 1,
          ⟨writeBytes st (ps * pc) (ser ++ List.replicate (ps - ser.length) 0),
            ps * pc + ps⟩⟩) :=
    getPage_ok decode
      ⟨ps, pc + 1, ⟨writeBytes st (ps * pc) (ser ++ List.replicate (ps - ser.length) 0),
        ps * pc + ps⟩⟩ pc v (Nat.lt_succ_self pc) hWlen (by dsimp only; rw [hslice]; exact hdec)
  rw [e2]
  dsimp only
  have e3 := pop_eq ⟨ps, pc + 1,
    ⟨writeBytes st (ps * pc) (ser ++ List.replicate (ps - ser.length) 0), ps * pc + ps⟩⟩
  dsimp only at e3
  rw [usize_pred_wrap pc hcnt] at e3
  rw [e3]
  dsimp only
  refine ⟨?_, ?_, ?_, ?_, ?_, ?_⟩
  any_goals trivial
  rw [getPage_notFound decode _ pc (le_refl pc)]

/-- Witness for C8: push the encoded value 5 into an empty store with
`page_size = 2`, read it back, pop it, and observe the old last index gone. -/
theorem push_pop_inverse_witness :
    (Pager.push (fun n : Nat => some [n]) (Pager.new 2 []) 5).1 = .ok () ∧
    (Pager.push (fun n : Nat => some [n]) (Pager.new 2 []) 5).2.pagesCount = 1 ∧
    (Pager.getPage (fun l : List Nat => l.head?)
        (Pager.push (fun n : Nat => some [n]) (Pager.new 2 []) 5).2 0).1 = .ok 5 ∧
    (Pager.pop (Pager.getPage (fun l : List Nat => l.head?)
        (Pager.push (fun n : Nat => some [n]) (Pager.new 2 []) 5).2 0).2).1 = .ok () ∧
    (Pager.pop (Pager.getPage (fun l : List Nat => l.head?)
        (Pager.push (fun n : Nat => some [n]) (Pager.new 2 []) 5).2 0).2).2.pagesCount + 1 =
      (Pager.push (fun n : Nat => some [n]) (Pager.new 2 []) 5).2.pagesCount ∧
    (Pager.getPage (fun l : List Nat => l.head?)
        (Pager.pop (Pager.getPage (fun l : List Nat => l.head?)
          (Pager.push (fun n : Nat => some [n]) (Pager.new 2 []) 5).2 0).2).2
        (Pager.new 2 []).pagesCount).1 =
      .error (BookwormError.new "Page doesn't exist") := by
  have h := push_pop_inverse (fun n : Nat => some [n]) (fun l : List Nat => l.head?)
    (Pager.new 2 []) 5 [5] rfl (by decide) (by decide) (by decide)
  exact ⟨h.1, h.2.1, h.2.2.1, h.2.2.2.1, h.2.2.2.2.1, h.2.2.2.2.2⟩

/-- A store obtained by pushing one 1-byte page and popping it: the logical
count returns to 0 but the zeroed page's bytes stay on the stream. -/
def poppedPager : Pager := (Pager.pop (Pager.pushRaw (Pager.new 1 []) [7]).2).2

/-- C4 counterexample: the two raw iteration disciplines do not always yield
the same sequence. After `push_raw([7]); pop()` on a store with
`page_size = 1`, the stream still holds one (zeroed) physical page while
`pages_count = 0`: the borrowing iterator (which stops at `pages_count`)
yields nothing, but the consuming iterator (which reads to end of stream)
yields the zeroed page. -/
theorem raw_iterators_disagree_after_pop :
    poppedPager.pagesCount = 0 ∧
    runRawIter 3 (Pager.rawIter poppedPager 0) = [] ∧
    runRawIterator 3 (Pager.intoRawIterator poppedPager 0) = [[0]] ∧
    runRawIter 3 (Pager.rawIter poppedPager 0) ≠
      runRawIterator 3 (Pager.intoRawIterator poppedPager 0) := by
  refine ⟨by decide, by decide, by decide, by decide⟩

theorem runRaw_equiv_aux (ps pc : Nat) (stream : List Nat) (hps : 0 < ps)
    (hlen : stream.length < (pc + 1) * ps) :
    ∀ (fuel cur posb : Nat),
      runRawIter fuel (Pager.rawIter ⟨ps, pc, ⟨stream, posb⟩⟩ cur) =
      runRawIterator fuel ⟨ps, ⟨stream, ps * cur⟩⟩ := by
  intro fuel
  induction fuel with
  | zero =>
    intro cur posb
    rfl
  | succ fuel ih =>
    intro cur posb
    simp only [runRawIter, runRawIterator, RawPagerIter.next, RawPagerIterator.next,
      Pager.rawIter]
    by_cases hb : pc ≤ cur
    · rw [getRawPage_notFound ⟨ps, pc, ⟨stream, posb⟩⟩ cur hb]
      have hfail : ¬ (ps * cur + ps ≤ stream.length) := by
        intro hcon
        have h1 : ps * (cur + 1) ≤ stream.length := by
          rw [Nat.mul_succ]
          omega
        have h2 : ps * (cur + 1) < ps * (pc + 1) := by
          rw [Nat.mul_comm ps (pc + 1)]
          exact lt_of_le_of_lt h1 hlen
        have h3 : cur + 1 < pc + 1 := Nat.lt_of_mul_lt_mul_left h2
        omega
      simp [Cursor.readExact, hfail]
    · push_neg at hb
      by_cases hc : ps * cur + ps ≤ stream.length
      · rw [getRawPage_ok ⟨ps, pc, ⟨stream, posb⟩⟩ cur hb hc]
        have hih := ih (cur + 1) (ps * cur + ps)
        simp only [Cursor.readExact, hc, if_true, sliceAt]
        simp only [Nat.mul_succ] at hih
        simpa [sliceAt] using hih
      · rw [getRawPage_shortRead ⟨ps, pc, ⟨stream, posb⟩⟩ cur hb hc]
        simp [Cursor.readExact, hc]

/-- C4 (amended): the borrowing and consuming raw iteration disciplines
yield the same sequence from every start index provided the stream holds no
full physical page beyond the logical count (stream length is below
`(pages_count + 1) * page_size`); each step reads exactly `page_size` bytes
at the current position and the sequence ends on a short or failed read —
the borrowing discipline additionally ends at `pages_count`, which under
this proviso coincides. (After `pop` or `clear` the proviso can fail and
the disciplines then disagree.) -/
theorem raw_iterators_agree_without_excess_pages (p : Pager) (start fuel : Nat)
    (hps : 0 < p.pageSize)
    (hlen : p.dataSource.stream.length < (p.pagesCount + 1) * p.pageSize) :
    runRawIter fuel (Pager.rawIter p start) =
      runRawIterator fuel (Pager.intoRawIterator p start) := by
  obtain ⟨ps, pc, st, pos0⟩ := p
  dsimp only at hps hlen
  have h := runRaw_equiv_aux ps pc st hps hlen fuel start pos0
  simpa [Pager.intoRawIterator, Cursor.seekStart] using h

/-- Witness for C4's amended theorem on a concrete two-page store. -/
theorem raw_iterators_agree_witness :
    0 < (Pager.new 2 [1, 2, 3, 4]).pageSize ∧
    (Pager.new 2 [1, 2, 3, 4]).dataSource.stream.length <
      ((Pager.new 2 [1, 2, 3, 4]).pagesCount + 1) * (Pager.new 2 [1, 2, 3, 4]).pageSize ∧
    runRawIter 5 (Pager.rawIter (Pager.new 2 [1, 2, 3, 4]) 0) =
      runRawIterator 5 (Pager.intoRawIterator (Pager.new 2 [1, 2, 3, 4]) 0) :=
  ⟨by decide, by decide,
    raw_iterators_agree_without_excess_pages (Pager.new 2 [1, 2, 3, 4]) 0 5
      (by decide) (by decide)⟩

/-- Modelled from the spec: the `Bookworm` compacting facade is exercised by
`src/src/tests.rs` but its source file is not under `src/`. Per §2 and §4.2
it composes a primary `Pager` and a structurally identical swap `Pager`
bound to a second byte sink. -/
structure Bookworm where
  pager : Pager
  swap : Pager

/-- Modelled from the spec: `Bookworm::new` binds both stores to their sinks
with one shared page size (the tests call `Bookworm::new(page_size,
data_source, swap)`). -/
def Bookworm.new (pageSize : Nat) (stream swapStream : List Nat) : Bookworm :=
  { pager := Pager.new pageSize stream, swap := Pager.new pageSize swapStream }

/-- Modelled from the spec (§4.2 phase 1): drain the tail to the swap — a
borrowing raw iteration on the primary starting at `cur`, appending each
page to the swap with `push_raw`; the loop ends at the iterator's first
exhausted step, and a failed append aborts with its error. `fuel` bounds the
step count (the borrowing iterator is exhausted within `pages_count + 1`
steps, so the caller's fuel makes the bound immaterial). -/
def drainTail : Nat → Pager → Pager → Nat → BookwormResult Unit × Pager × Pager
  | 0, primary, swap, _ => (.ok (), primary, swap)
  | fuel + 1, primary, swap, cur =>
    match primary.getRawPage cur with
    | (.ok page, primary') =>
      match swap.pushRaw page with
      | (.ok _, swap') => drainTail fuel primary' swap' (cur + 1)
      | (.error e, swap') => (.error e, primary', swap')
    | (.error _, primary') => (.ok (), primary', swap)

/-- Modelled from the spec (§4.2 phase 2): restore the tail — a borrowing
raw iteration on the swap from page 0 (step counter `i`), writing page `i`
back into the primary at slot `index + i`. -/
def restoreTail : Nat → Pager → Pager → Nat → Nat → BookwormResult Unit × Pager × Pager
  | 0, primary, swap, _, _ => (.ok (), primary, swap)
  | fuel + 1, primary, swap, index, i =>
    match swap.getRawPage i with
    | (.ok page, swap') =>
      match primary.writeRawPage (index + i) page with
      | (.ok _, primary') => restoreTail fuel primary' swap' index (i + 1)
      | (.error e, primary') => (.error e, primary', swap')
    | (.error _, swap') => (.ok (), primary, swap')

/-- Modelled from the spec (§4.2, §7): `delete(index)` fails with the
Underflow error when `pages_count == 0` (§7); otherwise it drains the tail
from `index + 1` into the swap, writes it back starting at `index`,
decrements the primary `pages_count` by one and resets the swap's count to
zero for reuse. -/
def Bookworm.delete (b : Bookworm) (index : Nat) : BookwormResult Unit × Bookworm :=
  if b.pager.pagesCount = 0 then
    (.error (BookwormError.new "Cannot delete page: store is empty"), b)
  else
    match drainTail (b.pager.pagesCount + 1) b.pager b.swap (index + 1) with
    | (.ok _, primary1, swap1) =>
      match restoreTail (swap1.pagesCount + 1) primary1 swap1 index 0 with
      | (.ok _, primary2, swap2) =>
        (.ok (), { pager := { primary2 with pagesCount := primary2.pagesCount - 1 },
                   swap := swap2.clear })
      | (.error e, primary2, swap2) => (.error e, { pager := primary2, swap := swap2 })
    | (.error e, primary1, swap1) => (.error e, { pager := primary1, swap := swap1 })

theorem drainTail_spec (ps : Nat) (hps : 0 < ps) :
    ∀ (fuel cur : Nat) (primary swap : Pager),
    primary.pageSize = ps →
    ps * primary.pagesCount ≤ primary.dataSource.stream.length →
    swap.pageSize = ps →
    ps * swap.pagesCount ≤ swap.dataSource.stream.length →
    primary.pagesCount + 1 ≤ fuel + cur →
    (drainTail fuel primary swap cur).1 = .ok () ∧
    (drainTail fuel primary swap cur).2.1.pageSize = ps ∧
    (drainTail fuel primary swap cur).2.1.pagesCount = primary.pagesCount ∧
    (drainTail fuel primary swap cur).2.1.dataSource.stream = primary.dataSource.stream ∧
    (drainTail fuel primary swap cur).2.2.pageSize = ps ∧
    (drainTail fuel primary swap cur).2.2.pagesCount
      = swap.pagesCount + (primary.pagesCount - cur) ∧
    ps * (swap.pagesCount + (primary.pagesCount - cur))
      ≤ (drainTail fuel primary swap cur).2.2.dataSource.stream.length ∧
    (∀ m, m < primary.pagesCount - cur →
      sliceAt (drainTail fuel primary swap cur).2.2.dataSource.stream
          (ps * (swap.pagesCount + m)) ps
        = sliceAt primary.dataSource.stream (ps * (cur + m)) ps) ∧
    (∀ off n, off + n ≤ ps * swap.pagesCount →
      sliceAt (drainTail fuel primary swap cur).2.2.dataSource.stream off n
        = sliceAt swap.dataSource.stream off n) := by
  intro fuel
  induction fuel with
  | zero =>
    intro cur primary swap hpps hplen hsps hslen hfuel
    have hpcur : primary.pagesCount - cur = 0 := by omega
    refine ⟨rfl, hpps, rfl, rfl, hsps, ?_, ?_, ?_, fun off n _ => rfl⟩
    · dsimp only [drainTail]
      omega
    · dsimp only [drainTail]
      rw [hpcur, Nat.add_zero]
      exact hslen
    · intro m hm
      rw [hpcur] at hm
      exact absurd hm (Nat.not_lt_zero m)
  | succ fuel ih =>
    intro cur primary swap
    obtain ⟨pps, ppc, pst, ppos⟩ := primary
    obtain ⟨sps, spc, sst, spos⟩ := swap
    intro hpps hplen hsps hslen hfuel
    dsimp only at hpps hplen hsps hslen hfuel ⊢
    subst pps
    subst sps
    by_cases hb : ppc ≤ cur
    · have hstep : drainTail (fuel + 1) ⟨ps, ppc, ⟨pst, ppos⟩⟩ ⟨ps, spc, ⟨sst, spos⟩⟩ cur
          = (.ok (), ⟨ps, ppc, ⟨pst, ppos⟩⟩, ⟨ps, spc, ⟨sst, spos⟩⟩) := by
        simp only [drainTail, getRawPage_notFound ⟨ps, ppc, ⟨pst, ppos⟩⟩ cur hb]
      rw [hstep]
      have hpcur : ppc - cur = 0 := by omega
      refine ⟨rfl, rfl, rfl, rfl, rfl, ?_, ?_, ?_, fun off n _ => rfl⟩
      · dsimp only
        omega
      · dsimp only
        rw [hpcur, Nat.add_zero]
        exact hslen
      · intro m hm
        rw [hpcur] at hm
        exact absurd hm (Nat.not_lt_zero m)
    · push_neg at hb
      have hcrd : ps * cur + ps ≤ pst.length := by
        have h1 : ps * (cur + 1) ≤ ps * ppc := Nat.mul_le_mul_left ps hb
        rw [Nat.mul_succ] at h1
        omega
      have hget := getRawPage_ok ⟨ps, ppc, ⟨pst, ppos⟩⟩ cur hb hcrd
      dsimp only at hget
      have hpage : (sliceAt pst (ps * cur) ps).length = ps :=
        sliceAt_length_of_le pst (ps * cur) ps hcrd
      have hpush := pushRaw_ok ⟨ps, spc, ⟨sst, spos⟩⟩ (sliceAt pst (ps * cur) ps)
        (le_of_eq hpage)
      dsimp only at hpush
      simp only [hpage, Nat.sub_self, List.replicate_zero, List.append_nil] at hpush
      have hstep : drainTail (fuel + 1) ⟨ps, ppc, ⟨pst, ppos⟩⟩ ⟨ps, spc, ⟨sst, spos⟩⟩ cur
          = drainTail fuel ⟨ps, ppc, ⟨pst, ps * cur + ps⟩⟩
              ⟨ps, spc + 1, ⟨writeBytes sst (ps * spc) (sliceAt pst (ps * cur) ps),
                ps * spc + ps⟩⟩ (cur + 1) := by
        simp only [drainTail, hget, hpush]
      rw [hstep]
      have hslen2 : ps * (spc + 1)
          ≤ (writeBytes sst (ps * spc) (sliceAt pst (ps * cur) ps)).length := by
        rw [length_writeBytes, hpage, Nat.mul_succ]
        omega
      have hIH := ih (cur + 1) ⟨ps, ppc, ⟨pst, ps * cur + ps⟩⟩
        ⟨ps, spc + 1, ⟨writeBytes sst (ps * spc) (sliceAt pst (ps * cur) ps),
          ps * spc + ps⟩⟩ rfl hplen rfl hslen2 (by dsimp only; omega)
      dsimp only at hIH
      obtain ⟨hA, hB, hC, hD, hE, hF, hG, hH, hI⟩ := hIH
      refine ⟨hA, hB, hC, hD, hE, ?_, ?_, ?_, ?_⟩
      · rw [hF]
        omega
      · have heq : spc + (ppc - cur) = (spc + 1) + (ppc - (cur + 1)) := by omega
        rw [heq]
        exact hG
      · intro m hm
        match m with
        | 0 =>
          simp only [Nat.add_zero]
          have h1 := hI (ps * spc) ps (by rw [Nat.mul_succ])
          rw [h1]
          have h2 := sliceAt_writeBytes_self sst (ps * spc) (sliceAt pst (ps * cur) ps)
          rw [hpage] at h2
          exact h2
        | m' + 1 =>
          have h3 := hH m' (by omega)
          have e1 : (spc + 1) + m' = spc + (m' + 1) := by omega
          have e2 : (cur + 1) + m' = cur + (m' + 1) := by omega
          rw [e1, e2] at h3
          exact h3
      · intro off n hoffn
        have h4 := hI off n
          (le_trans hoffn (Nat.mul_le_mul_left ps (Nat.le_succ spc)))
        rw [h4]
        exact sliceAt_writeBytes_lo sst (ps * spc) (sliceAt pst (ps * cur) ps) off n hoffn
          (le_trans hoffn hslen)

theorem restoreTail_spec (ps index : Nat) :
    ∀ (fuel i : Nat) (primary swap : Pager),
    primary.pageSize = ps →
    ps * primary.pagesCount ≤ primary.dataSource.stream.length →
    swap.pageSize = ps →
    ps * swap.pagesCount ≤ swap.dataSource.stream.length →
    index + swap.pagesCount ≤ primary.pagesCount →
    swap.pagesCount + 1 ≤ fuel + i →
    (restoreTail fuel primary swap index i).1 = .ok () ∧
    (restoreTail fuel primary swap index i).2.1.pageSize = ps ∧
    (restoreTail fuel primary swap index i).2.1.pagesCount = primary.pagesCount ∧
    (restoreTail fuel primary swap index i).2.1.dataSource.stream.length
      = primary.dataSource.stream.length ∧
    (∀ m, i ≤ m → m < swap.pagesCount →
      sliceAt (restoreTail fuel primary swap index i).2.1.dataSource.stream
          (ps * (index + m)) ps
        = sliceAt swap.dataSource.stream (ps * m) ps) ∧
    (∀ off n, off + n ≤ primary.dataSource.stream.length →
      (off + n ≤ ps * (index + i) ∨ ps * (index + swap.pagesCount) ≤ off) →
      sliceAt (restoreTail fuel primary swap index i).2.1.dataSource.stream off n
        = sliceAt primary.dataSource.stream off n) := by
  intro fuel
  induction fuel with
  | zero =>
    intro i primary swap hpps hplen hsps hslen hidx hfuel
    refine ⟨rfl, hpps, rfl, rfl, ?_, fun off n _ _ => rfl⟩
    intro m him hm
    exact absurd hm (by omega)
  | succ fuel ih =>
    intro i primary swap
    obtain ⟨pps, ppc, pst, ppos⟩ := primary
    obtain ⟨sps, spc, sst, spos⟩ := swap
    intro hpps hplen hsps hslen hidx hfuel
    dsimp only at hpps hplen hsps hslen hidx hfuel ⊢
    subst pps
    subst sps
    by_cases hb : spc ≤ i
    · have hstep : restoreTail (fuel + 1) ⟨ps, ppc, ⟨pst, ppos⟩⟩ ⟨ps, spc, ⟨sst, spos⟩⟩ index i
          = (.ok (), ⟨ps, ppc, ⟨pst, ppos⟩⟩, ⟨ps, spc, ⟨sst, spos⟩⟩) := by
        simp only [restoreTail, getRawPage_notFound ⟨ps, spc, ⟨sst, spos⟩⟩ i hb]
      rw [hstep]
      refine ⟨rfl, rfl, rfl, rfl, ?_, fun off n _ _ => rfl⟩
      intro m him hm
      exact absurd hm (by omega)
    · push_neg at hb
      have hsrd : ps * i + ps ≤ sst.length := by
        have h1 : ps * (i + 1) ≤ ps * spc := Nat.mul_le_mul_left ps hb
        rw [Nat.mul_succ] at h1
        omega
      have hget := getRawPage_ok ⟨ps, spc, ⟨sst, spos⟩⟩ i hb hsrd
      dsimp only at hget
      have hpage : (sliceAt sst (ps * i) ps).length = ps :=
        sliceAt_length_of_le sst (ps * i) ps hsrd
      have hbound : index + i < ppc := by omega
      have hwr := writeRawPage_ok ⟨ps, ppc, ⟨pst, ppos⟩⟩ (index + i) (sliceAt sst (ps * i) ps)
        hbound (le_of_eq hpage)
      dsimp only at hwr
      simp only [hpage, Nat.sub_self, List.replicate_zero, List.append_nil] at hwr
      have hposle : ps * (index + i) + ps ≤ pst.length := by
        have h1 : ps * (index + i + 1) ≤ ps * ppc := Nat.mul_le_mul_left ps (by omega)
        rw [Nat.mul_succ] at h1
        omega
      have hwlen : (writeBytes pst (ps * (index + i)) (sliceAt sst (ps * i) ps)).length
          = pst.length := by
        rw [length_writeBytes, hpage]
        omega
      have hstep : restoreTail (fuel + 1) ⟨ps, ppc, ⟨pst, ppos⟩⟩ ⟨ps, spc, ⟨sst, spos⟩⟩ index i
          = restoreTail fuel
              ⟨ps, ppc, ⟨writeBytes pst (ps * (index + i)) (sliceAt sst (ps * i) ps),
                ps * (index + i) + ps⟩⟩
              ⟨ps, spc, ⟨sst, ps * i + ps⟩⟩ index (i + 1) := by
        simp only [restoreTail, hget, hwr]
      rw [hstep]
      have hIH := ih (i + 1)
        ⟨ps, ppc, ⟨writeBytes pst (ps * (index + i)) (sliceAt sst (ps * i) ps),
          ps * (index + i) + ps⟩⟩
        ⟨ps, spc, ⟨sst, ps * i + ps⟩⟩ rfl (by dsimp only; rw [hwlen]; exact hplen) rfl hslen
        hidx (by dsimp only; omega)
      dsimp only at hIH
      obtain ⟨hA, hB, hC, hD, hE, hF⟩ := hIH
      refine ⟨hA, hB, hC, hD.trans hwlen, ?_, ?_⟩
      · intro m him hm
        rcases Nat.eq_or_lt_of_le him with heq | hlt
        · subst heq
          have h1 := hF (ps * (index + i)) ps
            (by rw [hwlen]; exact hposle)
            (Or.inl (le_of_eq (Nat.mul_succ ps (index + i)).symm))
          rw [h1]
          have h2 := sliceAt_writeBytes_self pst (ps * (index + i)) (sliceAt sst (ps * i) ps)
          rw [hpage] at h2
          exact h2
        · exact hE m hlt hm
      · intro off n hlen2 hdisj
        have hdisj2 : off + n ≤ ps * (index + (i + 1)) ∨ ps * (index + spc) ≤ off := by
          rcases hdisj with h | h
          · left
            calc off + n ≤ ps * (index + i) := h
              _ ≤ ps * (index + (i + 1)) := Nat.mul_le_mul_left ps (by omega)
          · right
            exact h
        have h1 := hF off n (by rw [hwlen]; exact hlen2) hdisj2
        rw [h1]
        rcases hdisj with h | h
        · exact sliceAt_writeBytes_lo pst (ps * (index + i)) (sliceAt sst (ps * i) ps) off n h
            hlen2
        · refine sliceAt_writeBytes_hi pst (ps * (index + i)) (sliceAt sst (ps * i) ps) off n
            ?_ (by omega)
          rw [hpage]
          calc ps * (index + i) + ps = ps * (index + i + 1) := (Nat.mul_succ ps (index + i)).symm
            _ ≤ ps * (index + spc) := Nat.mul_le_mul_left ps (by omega)
            _ ≤ off := h

theorem eraseIdx_map_range {α : Type} :
    ∀ (i : Nat) (f : Nat → α) (n : Nat), i < n →
      ((List.range n).map f).eraseIdx i
        = (List.range (n - 1)).map (fun j => if j < i then f j else f (j + 1)) := by
  intro i
  induction i with
  | zero =>
    intro f n hn
    match n, hn with
    | n + 1, _ =>
      rw [List.range_succ_eq_map]
      simp only [List.map_cons, List.eraseIdx_cons_zero, List.map_map, Nat.add_sub_cancel]
      refine List.map_congr_left (fun a _ => ?_)
      simp [Function.comp, Nat.succ_eq_add_one]
  | succ i ih =>
    intro f n hn
    match n, hn with
    | n + 1, hn =>
      have hn' : i < n := by omega
      rw [List.range_succ_eq_map]
      simp only [List.map_cons, List.eraseIdx_cons_succ, List.map_map]
      rw [ih (f ∘ Nat.succ) n hn', Nat.add_sub_cancel]
      conv_rhs => rw [show n = (n - 1) + 1 by omega, List.range_succ_eq_map]
      simp only [List.map_cons, List.map_map]
      congr 1
      · simp
      · refine List.map_congr_left (fun a _ => ?_)
        by_cases ha : a < i
        · simp [Function.comp, ha, Nat.succ_eq_add_one, show a + 1 < i + 1 from by omega]
        · simp [Function.comp, ha, Nat.succ_eq_add_one, show ¬ (a + 1 < i + 1) from by omega]

/-- C1: on a well-formed facade state — positive page size, the primary
stream holding all of its `pages_count` pages, the swap store empty and of
the same page size — `delete(index)` with `index < pages_count` succeeds,
removes the page at `index` and shifts every subsequent page down one
position preserving order: the visible sequence equals the old sequence
with the `index`-th element removed, and `pages_count` decreases by
exactly 1. -/
theorem delete_removes_page_at_index (b : Bookworm) (index : Nat)
    (hps : 0 < b.pager.pageSize)
    (hsps : b.swap.pageSize = b.pager.pageSize)
    (hswap0 : b.swap.pagesCount = 0)
    (hwf : b.pager.pageSize * b.pager.pagesCount ≤ b.pager.dataSource.stream.length)
    (hidx : index < b.pager.pagesCount) :
    (b.delete index).1 = .ok () ∧
    visPages (b.delete index).2.pager = (visPages b.pager).eraseIdx index ∧
    (b.delete index).2.pager.pagesCount + 1 = b.pager.pagesCount := by
  obtain ⟨⟨pps, ppc, pst, ppos⟩, ⟨sps, spc, sst, spos⟩⟩ := b
  dsimp only at hps hsps hswap0 hwf hidx ⊢
  subst sps
  subst spc
  have hdrain := drainTail_spec pps hps (ppc + 1) (index + 1)
    ⟨pps, ppc, ⟨pst, ppos⟩⟩ ⟨pps, 0, ⟨sst, spos⟩⟩ rfl hwf rfl
    (by dsimp only; simp) (by dsimp only; omega)
  rcases hdr : drainTail (ppc + 1) ⟨pps, ppc, ⟨pst, ppos⟩⟩ ⟨pps, 0, ⟨sst, spos⟩⟩ (index + 1)
    with ⟨r1, P1, S1⟩
  rw [hdr] at hdrain
  dsimp only at hdrain
  obtain ⟨hr1, hP1ps, hP1pc, hP1st, hS1ps, hS1pc, hS1len, hS1slice, hS1frame⟩ := hdrain
  subst r1
  simp only [Nat.zero_add] at hS1pc hS1len hS1slice
  have hrestore := restoreTail_spec pps index (S1.pagesCount + 1) 0 P1 S1
    hP1ps (by rw [hP1pc, hP1st]; exact hwf) hS1ps (by rw [hS1pc]; exact hS1len)
    (by rw [hS1pc, hP1pc]; omega) (by omega)
  rcases hrs : restoreTail (S1.pagesCount + 1) P1 S1 index 0 with ⟨r2, P2, S2⟩
  rw [hrs] at hrestore
  dsimp only at hrestore
  obtain ⟨hr2, hP2ps, hP2pc, hP2len, hP2slice, hP2frame⟩ := hrestore
  subst r2
  have hppc0 : ¬ ppc = 0 := by omega
  have hdel : Bookworm.delete ⟨⟨pps, ppc, ⟨pst, ppos⟩⟩, ⟨pps, 0, ⟨sst, spos⟩⟩⟩ index
      = (.ok (),
        { pager := { P2 with pagesCount := P2.pagesCount - 1 }
          swap := S2.clear }) := by
    simp only [Bookworm.delete]
    rw [if_neg hppc0, hdr]
    dsimp only
    rw [hrs]
  rw [hdel]
  refine ⟨rfl, ?_, ?_⟩
  · simp only [visPages]
    rw [hP2pc, hP1pc, hP2ps]
    rw [eraseIdx_map_range index (fun i => sliceAt pst (pps * i) pps) ppc hidx]
    refine List.map_congr_left ?_
    intro j hj
    rw [List.mem_range] at hj
    by_cases hji : j < index
    · rw [if_pos hji]
      have hjlen : pps * j + pps ≤ pst.length := by
        have h1 : pps * (j + 1) ≤ pps * ppc := Nat.mul_le_mul_left pps (by omega)
        rw [Nat.mul_succ] at h1
        omega
      have hfr := hP2frame (pps * j) pps (by rw [hP1st]; exact hjlen)
        (Or.inl (by
          rw [Nat.add_zero]
          calc pps * j + pps = pps * (j + 1) := (Nat.mul_succ pps j).symm
            _ ≤ pps * index := Nat.mul_le_mul_left pps (by omega)))
      rw [hfr, hP1st]
    · push_neg at hji
      rw [if_neg (by omega)]
      have hm : j - index < S1.pagesCount := by rw [hS1pc]; omega
      have h1 := hP2slice (j - index) (Nat.zero_le _) hm
      have h2 := hS1slice (j - index) (by omega)
      have e1 : index + (j - index) = j := by omega
      have e2 : (index + 1) + (j - index) = j + 1 := by omega
      rw [e1] at h1
      rw [e2] at h2
      exact h1.trans h2
  · dsimp only
    rw [hP2pc, hP1pc]
    omega

/-- Witness for C1: a store of three 2-byte pages; `delete(1)` leaves the
visible sequence `[p0, p2]` and drops the count from 3 to 2. -/
theorem delete_removes_page_at_index_witness :
    (0 < (Bookworm.new 2 [1, 1, 2, 2, 3, 3] []).pager.pageSize ∧
      (Bookworm.new 2 [1, 1, 2, 2, 3, 3] []).swap.pagesCount = 0 ∧
      1 < (Bookworm.new 2 [1, 1, 2, 2, 3, 3] []).pager.pagesCount) ∧
    ((Bookworm.new 2 [1, 1, 2, 2, 3, 3] []).delete 1).1 = .ok () ∧
    visPages ((Bookworm.new 2 [1, 1, 2, 2, 3, 3] []).delete 1).2.pager = [[1, 1], [3, 3]] ∧
    ((Bookworm.new 2 [1, 1, 2, 2, 3, 3] []).delete 1).2.pager.pagesCount + 1 =
      (Bookworm.new 2 [1, 1, 2, 2, 3, 3] []).pager.pagesCount := by
  have h := delete_removes_page_at_index (Bookworm.new 2 [1, 1, 2, 2, 3, 3] []) 1
    (by decide) (by decide) (by decide) (by decide) (by decide)
  refine ⟨⟨by decide, by decide, by decide⟩, h.1, ?_, h.2.2⟩
  rw [h.2.1]
  decide
